import Mathlib

/-!
Shallow embedding of the file-tree classification and lightweight
source-structure extraction routines of `utils/repo_utils.py`
(`build_file_tree`, `simple_parse_python`, `find_function_calls`),
together with theorems settling the specification claims about them.

Strings are modelled as `List Char` internally (Python `str` operations
such as `split`, `strip`, `startswith`, `lower` are re-implemented with
their Python semantics for the ASCII inputs at hand); top-level entry
points also come in a `String` form matching the Python signatures.
-/

namespace RepoUtils

/-- Model of Python's regex word character class as used by the source
patterns (ASCII letters, digits and underscore; the inputs considered are
ASCII, where `re`'s default Unicode `\w` coincides with this). -/
def isWordChar (c : Char) : Bool := c.isAlphanum || c == '_'

/-- Model of Python's whitespace class (`\s` in patterns and the
characters removed by `str.strip()` with no argument, at the ASCII
level): space, tab, newline, carriage return, vertical tab, form feed. -/
def isPySpace (c : Char) : Bool :=
  c == ' ' || c == '\t' || c == '\n' || c == '\r' || c == '\x0b' || c == '\x0c'

/-- The double-quote character. -/
def dq : Char := '"'

/-- The single-quote character. -/
def sq : Char := '\''

/-- The characters of the triple-double-quote docstring marker. -/
def tripleDQ : List Char := [dq, dq, dq]

/-- The characters of the triple-single-quote docstring marker. -/
def tripleSQ : List Char := [sq, sq, sq]

/-- Model of Python's `content.split('\n')`: split at every newline
character; the result always has one more element than there are
newlines, and splitting the empty string gives `[[]]`. -/
def splitOnNewline : List Char → List (List Char)
  | [] => [[]]
  | c :: cs =>
      if c == '\n' then [] :: splitOnNewline cs
      else
        match splitOnNewline cs with
        | [] => [[c]]
        | l :: ls => (c :: l) :: ls

/-- Model of Python's `str.strip`: remove from both ends every character
satisfying `p` (for `str.strip(chars)`, `p` is membership in the
character set `chars`; for `str.strip()`, `p` is whitespace). -/
def stripBy (p : Char → Bool) (cs : List Char) : List Char :=
  ((cs.dropWhile p).reverse.dropWhile p).reverse

/-- Model of Python's `str.strip()` with no argument. -/
def pyTrim (cs : List Char) : List Char := stripBy isPySpace cs

/-- `leadsWith p l` holds when `p` is an initial segment of `l`; model of
Python's `str.startswith`. -/
def leadsWith : List Char → List Char → Bool
  | [], _ => true
  | _ :: _, [] => false
  | p :: ps, c :: cs => p == c && leadsWith ps cs

/-- Model of Python's `str.startswith` on `String` arguments. -/
def strStarts (p s : String) : Bool := leadsWith p.toList s.toList

/-- `hasSubstr pat l` holds when `pat` occurs contiguously inside `l`
(model of Python's `pat in l` on strings). -/
def hasSubstr (pat : List Char) : List Char → Bool
  | [] => leadsWith pat []
  | c :: cs => leadsWith pat (c :: cs) || hasSubstr pat cs

/-- Model of Python's `str.lower()` (ASCII case folding, which agrees
with Python on the ASCII filenames considered). -/
def pyLower (s : String) : String := String.mk (s.toList.map Char.toLower)

/-! ## Tree Classifier: `build_file_tree` -/

/-- A directory tree as seen by `os.walk`: a directory's listing is a
list of entries, each either a file name or a named subdirectory with its
own listing, in the order the operating system reports them. -/
inductive Entry where
  | file : String → Entry
  | dir : String → List Entry → Entry

/-- The `ignore_dirs` set of `build_file_tree` (source lines 59-63),
kept in source order. -/
def ignoreDirs : List String :=
  [".git", "node_modules", "__pycache__", "venv", ".venv",
   "env", "build", "dist", ".eggs", "*.egg-info", ".tox",
   ".pytest_cache", ".mypy_cache", "htmlcov", ".coverage"]

/-- The `code_extensions` table of `build_file_tree` (source lines
66-79), kept in source order. -/
def codeExtensions : List (String × String) :=
  [(".py", "python"), (".jac", "jac"), (".js", "javascript"),
   (".ts", "typescript"), (".java", "java"), (".cpp", "cpp"),
   (".c", "c"), (".h", "c"), (".go", "go"), (".rs", "rust"),
   (".rb", "ruby"), (".php", "php")]

/-- Model of Python's `os.path.splitext(name)[1]` on a bare file name:
the extension runs from the last dot, except that a leading run of dots
never starts an extension (`".bashrc"` has extension `""`). -/
def extOf (name : String) : String :=
  let cs := name.toList
  let lead := (cs.takeWhile (fun c => c == '.')).length
  let rest := cs.drop lead
  if rest.contains '.' then
    String.mk ('.' :: (rest.reverse.takeWhile (fun c => c != '.')).reverse)
  else ""

/-- The per-file classification chain of `build_file_tree` (source lines
94-101): extension table first, then the case-insensitive README
spellings, then bare `.md`, else no label. The hidden-file skip of line
87 is applied by the caller, `walkFiles`. -/
def classifyFile (file : String) : Option String :=
  let ext := extOf file
  match List.lookup ext codeExtensions with
  | some lang => some lang
  | none =>
      if ["readme.md", "readme.txt", "readme"].contains (pyLower file) then some "readme"
      else if ext == ".md" then some "markdown"
      else none

/-- The directory-pruning test of `build_file_tree` (source line 83):
keep `d` when it is not in `ignore_dirs` and does not start with `'.'`. -/
def keepDir (d : String) : Bool := !ignoreDirs.contains d && !strStarts "." d

/-- Model of `os.path.join` / `os.path.relpath` as used on lines 90-91:
the relative path of a file is its name prefixed by the relative
directory path (empty at the root) with `/` separators. -/
def joinPath (root name : String) : String :=
  if root = "" then name else root ++ "/" ++ name

/-- The per-directory file loop of `build_file_tree` (source lines
85-101): skip hidden files, classify the rest, and record
`relative path ↦ label` in listing order. -/
def walkFiles (rel : String) (children : List Entry) : List (String × String) :=
  children.filterMap fun e =>
    match e with
    | Entry.file f =>
        if strStarts "." f then none
        else (classifyFile f).map fun t => (joinPath rel f, t)
    | Entry.dir _ _ => none

mutual

/-- One step of the `os.walk` recursion of `build_file_tree`: a file
entry contributes nothing at this level (it was handled by `walkFiles`
of its parent); a directory entry is pruned by `keepDir` (source line
83) before being descended into, and otherwise contributes its own
files followed by its subdirectories, depth first, exactly as the
top-down `os.walk` loop of lines 81-101 does. -/
def walkEntry (rel : String) : Entry → List (String × String)
  | Entry.file _ => []
  | Entry.dir n cs =>
      if keepDir n then
        walkFiles (joinPath rel n) cs ++ walkList (joinPath rel n) cs
      else []

/-- Walk a directory listing in order, concatenating the contributions
of each entry. -/
def walkList (rel : String) : List Entry → List (String × String)
  | [] => []
  | e :: rest => walkEntry rel e ++ walkList rel rest

end

/-- `build_file_tree(root_path)` (source lines 46-103) on an existing
readable root directory: the files of the root itself, then the pruned
subdirectories depth first. The mapping is an association list in
insertion order (each relative path is visited once, so keys are
unique, matching the Python dict). -/
def buildFileTree (entries : List Entry) : List (String × String) :=
  walkFiles "" entries ++ walkList "" entries

/-- `build_file_tree(root_path)` including the behavior on a root that
does not exist or cannot be read, modelled as `none`: `os.walk` is
called with its default `onerror=None`, so the `OSError` raised by the
underlying `scandir` of such a root is suppressed inside the generator,
which then yields no triples; the loop body never runs and the function
returns the empty dict without raising. -/
def buildFileTreeRoot : Option (List Entry) → List (String × String)
  | none => []
  | some entries => buildFileTree entries

/-! ## Structure Extractor: `simple_parse_python` -/

/-- Model of `re.match(r'^def\s+(\w+)\s*\(', line)` (source line 167),
returning the captured name on success. The regex is anchored at the
start of the line: literal `def`, at least one whitespace, at least one
word character (captured greedily), optional whitespace, then `(`.
Greedy matching is deterministic here because the classes
whitespace / word / `(` are pairwise disjoint, so maximal munch is the
only possible parse. -/
def matchDef (line : List Char) : Option (List Char) :=
  if leadsWith ['d', 'e', 'f'] line then
    let r1 := line.drop 3
    if (r1.takeWhile isPySpace).isEmpty then none
    else
      let r2 := r1.dropWhile isPySpace
      let name := r2.takeWhile isWordChar
      if name.isEmpty then none
      else
        let r3 := (r2.dropWhile isWordChar).dropWhile isPySpace
        if r3.head? = some '(' then some name else none
  else none

/-- Model of `re.match(r'^class\s+(\w+)', line)` (source line 186):
anchored literal `class`, at least one whitespace, then the captured
word-character name. -/
def matchClass (line : List Char) : Option (List Char) :=
  if leadsWith ['c', 'l', 'a', 's', 's'] line then
    let r1 := line.drop 5
    if (r1.takeWhile isPySpace).isEmpty then none
    else
      let name := (r1.dropWhile isPySpace).takeWhile isWordChar
      if name.isEmpty then none else some name
  else none

/-- The docstring capture of `simple_parse_python` (source lines 171-176
and 190-195): if line `i+1` exists and its stripped content starts with
a triple quote of either style, record that stripped content with all
leading and trailing `"` characters removed and then all leading and
trailing `'` characters removed (Python `str.strip('\x22\x22\x22')`
strips the character set, i.e. every `"` at either end); otherwise the
empty string. -/
def getDocstring (lines : List (List Char)) (i : Nat) : List Char :=
  match lines[i + 1]? with
  | none => []
  | some nextLine =>
      let t := pyTrim nextLine
      if leadsWith tripleDQ t || leadsWith tripleSQ t then
        stripBy (fun c => c == sq) (stripBy (fun c => c == dq) t)
      else []

/-- One discovered declaration: the dict appended on source lines
178-183 / 197-202. -/
structure Decl where
  name : String
  line : Nat
  docstring : String
  type : String
deriving DecidableEq, Repr

/-- The result dict of `simple_parse_python` (source lines 204-207). -/
structure ParseResult where
  functions : List Decl
  classes : List Decl
deriving DecidableEq, Repr

/-- The enumeration loop of `simple_parse_python` (source lines
165-202): `i` is the 0-based index of the first line of `rest` within
`allLines`; each line is tested against both patterns and contributes a
function and/or class record with 1-based line number `i + 1`. -/
def parseFrom (allLines : List (List Char)) : Nat → List (List Char) → List Decl × List Decl
  | _, [] => ([], [])
  | i, line :: rest =>
      let r := parseFrom allLines (i + 1) rest
      let fs :=
        match matchDef line with
        | some n =>
            { name := String.mk n, line := i + 1,
              docstring := String.mk (getDocstring allLines i),
              type := "function" } :: r.1
        | none => r.1
      let cs :=
        match matchClass line with
        | some n =>
            { name := String.mk n, line := i + 1,
              docstring := String.mk (getDocstring allLines i),
              type := "class" } :: r.2
        | none => r.2
      (fs, cs)

/-- `simple_parse_python(content)` (source lines 150-207) on the
character list of the content. -/
def simpleParsePythonL (content : List Char) : ParseResult :=
  let lines := splitOnNewline content
  let r := parseFrom lines 0 lines
  { functions := r.1, classes := r.2 }

/-- `simple_parse_python(content)` with the Python `str` signature. -/
def simpleParsePython (content : String) : ParseResult :=
  simpleParsePythonL content.toList

/-! ## Call-site search: `find_function_calls` -/

/-- One atom of the compiled pattern `rf'\b{function_name}\s*\('`
(source line 224): interpolating the caller-supplied name verbatim turns
each of its characters into a regex atom. This models names made of word
characters (literal atoms) and `.` (the any-character atom), which
covers every name considered here; it is exactly where the source fails
to escape the name. -/
inductive RTok where
  | lit : Char → RTok
  | anyc : RTok

/-- How one character of the interpolated `function_name` reads as a
regex atom: `.` is the wildcard, a word character is a literal. -/
def nameTok (c : Char) : RTok := if c == '.' then RTok.anyc else RTok.lit c

/-- Whether a pattern atom matches one character (`.` matches any
character except newline; lines contain no newline here). -/
def tokMatches : RTok → Char → Bool
  | RTok.lit c, d => c == d
  | RTok.anyc, d => d != '\n'

/-- Match a sequence of atoms against the front of the text, returning
the remaining text on success. -/
def matchToks : List RTok → List Char → Option (List Char)
  | [], cs => some cs
  | _ :: _, [] => none
  | t :: ts, c :: cs => if tokMatches t c then matchToks ts cs else none

/-- Match the trailing `\s*\(` of the pattern: skip whitespace, then
require `(`. (Backtracking is irrelevant: `(` is not whitespace, so the
greedy parse is the only one.) -/
def matchWsParen : List Char → Bool
  | [] => false
  | c :: cs => if c == '(' then true else if isPySpace c then matchWsParen cs else false

/-- The `\b` word-boundary assertion between the previous character (if
any) and the rest of the text: exactly one side is a word character,
with out-of-range counting as non-word. -/
def boundaryAt (prev : Option Char) (cs : List Char) : Bool :=
  (match prev with | none => false | some p => isWordChar p) !=
  (match cs with | [] => false | c :: _ => isWordChar c)

/-- Whether a match begins exactly at the current position. -/
def tryMatchHere (toks : List RTok) (prev : Option Char) (cs : List Char) : Bool :=
  boundaryAt prev cs &&
    match matchToks toks cs with
    | some rest => matchWsParen rest
    | none => false

/-- Model of `pattern.search(line)` (source line 227): scan every
position of the line for a match of `\b` + atoms + `\s*\(`. -/
def searchLine (toks : List RTok) : Option Char → List Char → Bool
  | prev, [] => tryMatchHere toks prev []
  | prev, c :: cs => tryMatchHere toks prev (c :: cs) || searchLine toks (some c) cs

/-- The line loop of `find_function_calls` (source lines 226-228): each
line whose search succeeds contributes its 1-based number once, in
ascending order. -/
def collectCalls (toks : List RTok) : Nat → List (List Char) → List Nat
  | _, [] => []
  | i, l :: rest =>
      if searchLine toks none l then (i + 1) :: collectCalls toks (i + 1) rest
      else collectCalls toks (i + 1) rest

/-- `find_function_calls(content, function_name)` (source lines
210-230) on character lists. -/
def findFunctionCallsL (content functionName : List Char) : List Nat :=
  collectCalls (functionName.map nameTok) 0 (splitOnNewline content)

/-- `find_function_calls(content, function_name)` with the Python `str`
signature. -/
def findFunctionCalls (content functionName : String) : List Nat :=
  findFunctionCallsL content.toList functionName.toList

/-! ## Helper lemmas -/

lemma contains_of_mem {s : String} {l : List String} (h : s ∈ l) : l.contains s = true :=
  List.elem_iff.mpr h

lemma take_of_leadsWith : ∀ (p l : List Char), leadsWith p l = true → l.take p.length = p
  | [], _, _ => by simp
  | _ :: _, [], h => by simp [leadsWith] at h
  | p :: ps, c :: cs, h => by
      simp only [leadsWith, Bool.and_eq_true, beq_iff_eq] at h
      obtain ⟨rfl, h2⟩ := h
      simp [List.take_succ_cons, take_of_leadsWith ps cs h2]

lemma leadsWith_append (p l : List Char) : leadsWith p (p ++ l) = true := by
  induction p with
  | nil => simp [leadsWith]
  | cons a t ih => simp [leadsWith, ih]

lemma dropWhile_append_all {p : Char → Bool} :
    ∀ {l1 l2 : List Char}, (∀ c ∈ l1, p c = true) →
      List.dropWhile p (l1 ++ l2) = List.dropWhile p l2 := by
  intro l1
  induction l1 with
  | nil => intro l2 _; rfl
  | cons a t ih =>
      intro l2 h
      have ha := h a (List.mem_cons_self a t)
      simp only [List.cons_append, List.dropWhile_cons, ha, if_pos]
      exact ih fun c hc => h c (List.mem_cons_of_mem a hc)

lemma dropWhile_all {p : Char → Bool} {l : List Char} (h : ∀ c ∈ l, p c = true) :
    List.dropWhile p l = [] := by
  have := @dropWhile_append_all p l [] h
  simpa using this

lemma dropWhile_head_false {p : Char → Bool} {l : List Char}
    (h : ∀ c, l.head? = some c → p c = false) : List.dropWhile p l = l := by
  cases l with
  | nil => rfl
  | cons a t => simp [List.dropWhile_cons, h a rfl]

lemma stripBy_wrap (p : Char → Bool) (pre s post : List Char)
    (hpre : ∀ c ∈ pre, p c = true) (hpost : ∀ c ∈ post, p c = true)
    (hh : ∀ c, s.head? = some c → p c = false)
    (hl : ∀ c, s.getLast? = some c → p c = false) :
    stripBy p (pre ++ s ++ post) = s := by
  cases s with
  | nil =>
      have h1 : List.dropWhile p (pre ++ post) = [] :=
        dropWhile_all (by
          intro c hc
          rcases List.mem_append.mp hc with h | h
          exacts [hpre c h, hpost c h])
      simp [stripBy, h1]
  | cons a t =>
      have hhead : p a = false := hh a rfl
      have h1 : List.dropWhile p (pre ++ (a :: t) ++ post) = (a :: t) ++ post := by
        rw [List.append_assoc, dropWhile_append_all hpre]
        have h2 : List.dropWhile p (a :: (t ++ post)) = a :: (t ++ post) :=
          dropWhile_head_false (by
            intro c hc
            simp only [List.head?_cons, Option.some.injEq] at hc
            subst hc
            exact hhead)
        simpa using h2
      have hrev : List.dropWhile p (a :: t).reverse = (a :: t).reverse :=
        dropWhile_head_false (by
          intro c hc
          rw [List.head?_reverse] at hc
          exact hl c hc)
      simp only [stripBy]
      rw [h1, List.reverse_append,
        dropWhile_append_all fun c hc => hpost c (List.mem_reverse.mp hc),
        hrev, List.reverse_reverse]

lemma stripBy_eq_self {p : Char → Bool} {s : List Char}
    (hh : ∀ c, s.head? = some c → p c = false)
    (hl : ∀ c, s.getLast? = some c → p c = false) :
    stripBy p s = s := by
  have := stripBy_wrap p [] s [] (by simp) (by simp) hh hl
  simpa using this

lemma splitOnNewline_no_nl : ∀ {l : List Char}, '\n' ∉ l → splitOnNewline l = [l] := by
  intro l
  induction l with
  | nil => intro _; rfl
  | cons a t ih =>
      intro h
      have ha : (a == '\n') = false := by
        rw [beq_eq_false_iff_ne]
        intro e
        exact h (by rw [e]; exact List.mem_cons_self _ _)
      have ht : '\n' ∉ t := fun hm => h (List.mem_cons_of_mem a hm)
      simp [splitOnNewline, ha, ih ht]

lemma splitOnNewline_append : ∀ {a : List Char} (b : List Char), '\n' ∉ a →
    splitOnNewline (a ++ '\n' :: b) = a :: splitOnNewline b := by
  intro a
  induction a with
  | nil => intro b _; simp [splitOnNewline]
  | cons c t ih =>
      intro b h
      have hc : (c == '\n') = false := by
        rw [beq_eq_false_iff_ne]
        intro e
        exact h (by rw [e]; exact List.mem_cons_self _ _)
      have ht : '\n' ∉ t := fun hm => h (List.mem_cons_of_mem c hm)
      simp [splitOnNewline, hc, ih b ht]

lemma matchDef_space (x : List Char) : matchDef (' ' :: x) = none := by
  have h1 : leadsWith ['d', 'e', 'f'] (' ' :: x) = false := by
    simp [leadsWith, show ('d' == ' ') = false from by decide]
  simp [matchDef, h1]

lemma matchClass_space (x : List Char) : matchClass (' ' :: x) = none := by
  have h1 : leadsWith ['c', 'l', 'a', 's', 's'] (' ' :: x) = false := by
    simp [leadsWith, show ('c' == ' ') = false from by decide]
  simp [matchClass, h1]

lemma matchDef_take {l : List Char} (h : (matchDef l).isSome) :
    l.take 3 = ['d', 'e', 'f'] := by
  by_cases hl : leadsWith ['d', 'e', 'f'] l = true
  · exact take_of_leadsWith _ _ hl
  · simp only [matchDef] at h
    rw [if_neg hl] at h
    simp at h

lemma matchClass_take {l : List Char} (h : (matchClass l).isSome) :
    l.take 5 = ['c', 'l', 'a', 's', 's'] := by
  by_cases hl : leadsWith ['c', 'l', 'a', 's', 's'] l = true
  · exact take_of_leadsWith _ _ hl
  · simp only [matchClass] at h
    rw [if_neg hl] at h
    simp at h

lemma head_of_take {l cs : List Char} {c : Char} {n : Nat}
    (h : l.take n = c :: cs) : l.head? = some c := by
  cases l with
  | nil => simp at h
  | cons a t =>
      cases n with
      | zero => simp at h
      | succ m =>
          rw [List.take_succ_cons] at h
          injection h with h1 _
          simp [h1]

lemma parseFrom_line_shape (all : List (List Char)) :
    ∀ (rest : List (List Char)) (i : Nat) (r : Decl),
      r ∈ (parseFrom all i rest).1 ∨ r ∈ (parseFrom all i rest).2 →
      ∃ j l, rest[j]? = some l ∧ r.line = i + j + 1 ∧
        ((matchDef l).isSome ∨ (matchClass l).isSome) := by
  intro rest
  induction rest with
  | nil =>
      intro i r h
      simp [parseFrom] at h
  | cons line rest ih =>
      intro i r h
      have step : r ∈ (parseFrom all (i + 1) rest).1 ∨ r ∈ (parseFrom all (i + 1) rest).2 →
          ∃ j l, (line :: rest)[j]? = some l ∧ r.line = i + j + 1 ∧
            ((matchDef l).isSome ∨ (matchClass l).isSome) := by
        intro h2
        obtain ⟨j, l, hj, hline, hm⟩ := ih (i + 1) r h2
        refine ⟨j + 1, l, ?_, by omega, hm⟩
        simpa using hj
      rcases hdm : matchDef line with _ | n <;> rcases hcm : matchClass line with _ | m <;>
          simp only [parseFrom, hdm, hcm] at h
      · exact step h
      · rcases h with h | h
        · exact step (Or.inl h)
        · rcases List.mem_cons.mp h with h | h
          · subst h
            exact ⟨0, line, by simp, by simp, Or.inr (by simp [hcm])⟩
          · exact step (Or.inr h)
      · rcases h with h | h
        · rcases List.mem_cons.mp h with h | h
          · subst h
            exact ⟨0, line, by simp, by simp, Or.inl (by simp [hdm])⟩
          · exact step (Or.inl h)
        · exact step (Or.inr h)
      · rcases h with h | h
        · rcases List.mem_cons.mp h with h | h
          · subst h
            exact ⟨0, line, by simp, by simp, Or.inl (by simp [hdm])⟩
          · exact step (Or.inl h)
        · rcases List.mem_cons.mp h with h | h
          · subst h
            exact ⟨0, line, by simp, by simp, Or.inr (by simp [hcm])⟩
          · exact step (Or.inr h)

/-! ## Claim theorems -/

/-- C1 (theorem for the amended claim): `build_file_tree` applied to a
root that does not exist or cannot be read returns the empty mapping
and raises nothing — `os.walk` suppresses the traversal error under its
default `onerror=None`, so the loop body never runs. -/
theorem buildFileTree_missing_root_returns_empty : buildFileTreeRoot none = [] := rfl

/-- C1 (counterexample to the claim as stated): the claim says a missing
or unreadable root fails with a filesystem-access error, never silently
returning an empty mapping, so that the caller can distinguish an empty
tree from a failed traversal. In fact the result for a missing root is
exactly the result for an existing empty tree — the two are
indistinguishable and no error is surfaced. -/
theorem buildFileTree_missing_root_indistinguishable :
    buildFileTreeRoot none = buildFileTreeRoot (some []) := rfl

/-- C2 (evaluation at the failing input): `find_function_calls`
interpolates the caller-supplied name into the pattern without escaping
and raises no error, so with name `foo.` the `.` acts as a regex
wildcard: on the text `foox(1)`, which contains no occurrence of the
literal name `foo.` at all, it silently reports line 1 — it neither
escapes the name nor raises an `InvalidPatternError`. -/
theorem findFunctionCalls_unescaped_dot :
    findFunctionCalls "foox(1)" "foo." = [1]
    ∧ hasSubstr "foo.".toList "foox(1)".toList = false := by decide

/-- C3 (counterexample to the claim as stated): the claim says the
recorded docstring is the trimmed next line with only the leading
triple-quote marker stripped, the trailing closing marker being kept.
For `def foo():` followed by `\x22\x22\x22doc\x22\x22\x22` the code
records `doc`, not `doc\x22\x22\x22`: Python's `str.strip` removes the
quote characters from both ends. -/
theorem docstring_trailing_marker_refuted :
    (simpleParsePython "def foo():\n    \"\"\"doc\"\"\"").functions.map Decl.docstring
        = ["doc"]
    ∧ (simpleParsePython "def foo():\n    \"\"\"doc\"\"\"").functions.map Decl.docstring
        ≠ ["doc\"\"\""] := by decide

/-- C5: `extractDeclarations` (`simple_parse_python`) on
`def foo(x):` + newline + indented `\x22\x22\x22does a thing\x22\x22\x22`
+ newline + indented `return x` yields exactly one function record with
name `foo`, line 1 and docstring `does a thing`, and no class records. -/
theorem extractDeclarations_example :
    simpleParsePython "def foo(x):\n    \"\"\"does a thing\"\"\"\n    return x"
      = ⟨[⟨"foo", 1, "does a thing", "function"⟩], []⟩ := by decide

/-- C6: `findCallSites` (`find_function_calls`) with name `foo` on
`foo(1)` / `bar(foo(2))` / `foodbar(3)` returns exactly `[1, 2]`; line 3
is excluded by the `\b` word-boundary (the `foo` inside `foodbar` is
preceded by nothing and followed by `d`, a word character, so no match
ends in `(`). -/
theorem findCallSites_word_boundary_example :
    findFunctionCalls "foo(1)\nbar(foo(2))\nfoodbar(3)" "foo" = [1, 2] := by decide

/-- C7: the classification chain applies its rules in strict precedence
order — extension table, then README spellings (case-insensitively, as
`ReadMe` shows), then `.md`, else omitted — so the four-file tree yields
`readme`, `markdown`, `python`, `rust`; `README.md` in particular takes
the `readme` label, not `markdown`, and an unrecognized file such as
`data.csv` is omitted. -/
theorem classify_precedence_example :
    buildFileTree [Entry.file "README.md", Entry.file "notes.md",
        Entry.file "main.py", Entry.file "lib.rs"]
      = [("README.md", "readme"), ("notes.md", "markdown"),
         ("main.py", "python"), ("lib.rs", "rust")]
    ∧ classifyFile "README.md" = some "readme"
    ∧ classifyFile "ReadMe" = some "readme"
    ∧ classifyFile "data.csv" = none
    ∧ buildFileTree [Entry.file "data.csv"] = [] := by decide

/-- C9: when the line after a matched declaration is a bare triple-quote
marker (of either style), the recorded docstring is the empty string —
exactly what is recorded for a declaration with no docstring line at
all, so the two cases are indistinguishable in the output. -/
theorem bare_marker_docstring_empty :
    (simpleParsePython "def f():\n    \"\"\"").functions
        = [⟨"f", 1, "", "function"⟩]
    ∧ (simpleParsePython (String.mk ("def g():\n    ".toList ++ tripleSQ))).functions
        = [⟨"g", 1, "", "function"⟩]
    ∧ (simpleParsePython "def h():\n    pass").functions
        = [⟨"h", 1, "", "function"⟩] := by decide

/-- C4: an ignored subdirectory — one whose name is in the fixed
ignore-set or begins with the hidden-file marker — is pruned before it
is descended into, at every level of the walk (`rel`, the relative
prefix, is arbitrary): whatever its contents `cs`, it contributes
nothing to the walk, and at the top level the tree with the directory
behaves exactly like the tree without it. Hence no returned path lies
inside such a subdirectory. -/
theorem classify_prunes_ignored_dirs (rel n : String) (cs rest : List Entry)
    (h : n ∈ ignoreDirs ∨ strStarts "." n = true) :
    walkList rel (Entry.dir n cs :: rest) = walkList rel rest
    ∧ buildFileTree (Entry.dir n cs :: rest) = buildFileTree rest := by
  have hk : keepDir n = false := by
    rcases h with h | h
    · have hc : ignoreDirs.contains n = true := contains_of_mem h
      unfold keepDir
      rw [hc]
      rfl
    · simp [keepDir, h]
  constructor
  · simp [walkList, walkEntry, hk]
  · simp [buildFileTree, walkList, walkEntry, walkFiles, hk]

/-- C4 witness: instantiation at `node_modules` containing a recognized
`.py` file, next to an ordinary `b.py`. -/
theorem classify_prunes_ignored_dirs_witness :
    ("node_modules" ∈ ignoreDirs ∨ strStarts "." "node_modules" = true)
    ∧ (walkList "" (Entry.dir "node_modules" [Entry.file "a.py"] :: [Entry.file "b.py"])
          = walkList "" [Entry.file "b.py"]
      ∧ buildFileTree (Entry.dir "node_modules" [Entry.file "a.py"] :: [Entry.file "b.py"])
          = buildFileTree [Entry.file "b.py"]) :=
  ⟨Or.inl (by decide),
   classify_prunes_ignored_dirs "" "node_modules" [Entry.file "a.py"] [Entry.file "b.py"]
     (Or.inl (by decide))⟩

/-- C10: the ignore-set test is an exact string comparison, so the entry
`*.egg-info` prunes only a directory literally named `*.egg-info`; a
directory named `mypkg.egg-info` is traversed in full (for arbitrary
contents `sub` it contributes its complete walk while the literal
`*.egg-info` sibling with the same contents contributes nothing), and
its recognized files appear in the mapping. -/
theorem ignore_set_exact_match :
    (∀ sub : List Entry,
      buildFileTree [Entry.dir "*.egg-info" sub, Entry.dir "mypkg.egg-info" sub]
        = walkFiles "mypkg.egg-info" sub ++ walkList "mypkg.egg-info" sub)
    ∧ buildFileTree [Entry.dir "mypkg.egg-info" [Entry.file "mod.py"]]
        = [("mypkg.egg-info/mod.py", "python")] := by
  constructor
  · intro sub
    have h1 : keepDir "*.egg-info" = false := by decide
    have h2 : keepDir "mypkg.egg-info" = true := by decide
    have h3 : joinPath "" "mypkg.egg-info" = "mypkg.egg-info" := rfl
    simp [buildFileTree, walkFiles, walkList, walkEntry, h1, h2, h3]
  · decide

/-- C8: every record produced by `extractDeclarations`
(`simple_parse_python`) comes from a line whose declaration keyword
begins at column 0: the line with 1-based number `record.line` starts
with `def` (or `class`), and in particular not with whitespace — an
indented declaration never produces a record, since both patterns are
anchored at the start of the line. -/
theorem declarations_column_zero (content : String) (r : Decl)
    (h : r ∈ (simpleParsePython content).functions
       ∨ r ∈ (simpleParsePython content).classes) :
    ∃ l, (splitOnNewline content.toList)[r.line - 1]? = some l
      ∧ (∀ c, l.head? = some c → isPySpace c = false)
      ∧ (l.take 3 = ['d', 'e', 'f'] ∨ l.take 5 = ['c', 'l', 'a', 's', 's']) := by
  have h2 : r ∈ (parseFrom (splitOnNewline content.toList) 0 (splitOnNewline content.toList)).1
      ∨ r ∈ (parseFrom (splitOnNewline content.toList) 0 (splitOnNewline content.toList)).2 := by
    simpa [simpleParsePython, simpleParsePythonL] using h
  obtain ⟨j, l, hj, hline, hm⟩ := parseFrom_line_shape _ _ 0 r h2
  have hj2 : r.line - 1 = j := by omega
  refine ⟨l, by rw [hj2]; exact hj, ?_, ?_⟩
  · intro c hc
    rcases hm with hm | hm
    · rw [head_of_take (matchDef_take hm)] at hc
      injection hc with hc
      subst hc
      decide
    · rw [head_of_take (matchClass_take hm)] at hc
      injection hc with hc
      subst hc
      decide
  · rcases hm with hm | hm
    · exact Or.inl (matchDef_take hm)
    · exact Or.inr (matchClass_take hm)

/-- C8 witness: instantiation at the one-line content `def f(x):` and
its function record. -/
theorem declarations_column_zero_witness :
    ((⟨"f", 1, "", "function"⟩ : Decl) ∈ (simpleParsePython "def f(x):").functions
      ∨ (⟨"f", 1, "", "function"⟩ : Decl) ∈ (simpleParsePython "def f(x):").classes)
    ∧ ∃ l, (splitOnNewline "def f(x):".toList)[(⟨"f", 1, "", "function"⟩ : Decl).line - 1]?
            = some l
        ∧ (∀ c, l.head? = some c → isPySpace c = false)
        ∧ (l.take 3 = ['d', 'e', 'f'] ∨ l.take 5 = ['c', 'l', 'a', 's', 's']) :=
  ⟨Or.inl (by decide),
   declarations_column_zero "def f(x):" ⟨"f", 1, "", "function"⟩ (Or.inl (by decide))⟩

/-- C3 (theorem for the amended claim): for a declaration whose next
line is an indented one-line docstring `\x22\x22\x22s\x22\x22\x22`, the
recorded docstring is `s` with BOTH the leading and the trailing
triple-quote markers removed — Python's `str.strip` strips the quote
characters from both ends — provided the payload `s` is a single line
that neither starts nor ends with a quote character of either style. -/
theorem docstring_both_markers_stripped (s : List Char)
    (hnl : '\n' ∉ s)
    (hh : ∀ c, s.head? = some c → c ≠ dq ∧ c ≠ sq)
    (hl : ∀ c, s.getLast? = some c → c ≠ dq ∧ c ≠ sq) :
    simpleParsePythonL ("def foo():\n    \"\"\"".toList ++ s ++ tripleDQ)
      = ⟨[⟨"foo", 1, String.mk s, "function"⟩], []⟩ := by
  have e1 : ("def foo():\n    \"\"\"".toList ++ s ++ tripleDQ)
      = "def foo():".toList ++ '\n' :: ([' ', ' ', ' ', ' '] ++ (tripleDQ ++ s ++ tripleDQ)) := by
    have e0 : "def foo():\n    \"\"\"".toList
        = "def foo():".toList ++ '\n' :: ([' ', ' ', ' ', ' '] ++ tripleDQ) := by decide
    rw [e0]
    simp [List.append_assoc]
  have hnl2 : '\n' ∉ (([' ', ' ', ' ', ' '] : List Char) ++ (tripleDQ ++ s ++ tripleDQ)) := by
    intro hm
    rcases List.mem_append.mp hm with h1 | h1
    · revert h1; decide
    · rcases List.mem_append.mp h1 with h2 | h2
      · rcases List.mem_append.mp h2 with h3 | h3
        · revert h3; decide
        · exact hnl h3
      · revert h2; decide
  have hlines : splitOnNewline ("def foo():\n    \"\"\"".toList ++ s ++ tripleDQ)
      = ["def foo():".toList, [' ', ' ', ' ', ' '] ++ (tripleDQ ++ s ++ tripleDQ)] := by
    rw [e1, splitOnNewline_append _ (by decide), splitOnNewline_no_nl hnl2]
  have hhead3 : (tripleDQ ++ s ++ tripleDQ).head? = some dq := by
    simp [tripleDQ]
  have hlast3 : (tripleDQ ++ s ++ tripleDQ).getLast? = some dq := by
    rw [← List.head?_reverse]
    simp [tripleDQ, List.reverse_append]
  have htrim : pyTrim ([' ', ' ', ' ', ' '] ++ (tripleDQ ++ s ++ tripleDQ))
      = tripleDQ ++ s ++ tripleDQ := by
    have hw := stripBy_wrap isPySpace [' ', ' ', ' ', ' '] (tripleDQ ++ s ++ tripleDQ) []
      (by decide) (by simp)
      (by intro c hc; rw [hhead3] at hc; injection hc with hc; subst hc; decide)
      (by intro c hc; rw [hlast3] at hc; injection hc with hc; subst hc; decide)
    simpa [pyTrim] using hw
  have hsw : leadsWith tripleDQ (tripleDQ ++ s ++ tripleDQ) = true := by
    simpa [List.append_assoc] using leadsWith_append tripleDQ (s ++ tripleDQ)
  have hstrip1 : stripBy (fun c => c == dq) (tripleDQ ++ (s ++ tripleDQ)) = s := by
    have hw := stripBy_wrap (fun c => c == dq) tripleDQ s tripleDQ (by decide) (by decide)
      (fun c hc => by rw [beq_eq_false_iff_ne]; exact (hh c hc).1)
      (fun c hc => by rw [beq_eq_false_iff_ne]; exact (hl c hc).1)
    simpa using hw
  have hstrip2 : stripBy (fun c => c == sq) s = s := by
    refine stripBy_eq_self ?_ ?_
    · intro c hc
      rw [beq_eq_false_iff_ne]
      exact (hh c hc).2
    · intro c hc
      rw [beq_eq_false_iff_ne]
      exact (hl c hc).2
  have hdoc : getDocstring
      ["def foo():".toList, [' ', ' ', ' ', ' '] ++ (tripleDQ ++ s ++ tripleDQ)] 0 = s := by
    simp only [getDocstring, List.getElem?_cons_succ, List.getElem?_cons_zero]
    rw [htrim, hsw]
    simp [hstrip1, hstrip2]
  have hmd1 : matchDef ("def foo():".toList) = some ['f', 'o', 'o'] := by decide
  have hmc1 : matchClass ("def foo():".toList) = none := by decide
  have hmd2 : matchDef ([' ', ' ', ' ', ' '] ++ (tripleDQ ++ s ++ tripleDQ)) = none :=
    matchDef_space _
  have hmc2 : matchClass ([' ', ' ', ' ', ' '] ++ (tripleDQ ++ s ++ tripleDQ)) = none :=
    matchClass_space _
  simp only [simpleParsePythonL]
  rw [hlines]
  simp only [parseFrom, hmd1, hmc1, hmd2, hmc2, hdoc]

/-- C3 witness: instantiation at the payload `does a thing`, whose
recorded docstring drops the trailing marker as well as the leading
one. -/
theorem docstring_both_markers_stripped_witness :
    ('\n' ∉ "does a thing".toList
      ∧ (∀ c, ("does a thing".toList).head? = some c → c ≠ dq ∧ c ≠ sq)
      ∧ (∀ c, ("does a thing".toList).getLast? = some c → c ≠ dq ∧ c ≠ sq))
    ∧ simpleParsePythonL ("def foo():\n    \"\"\"".toList ++ "does a thing".toList ++ tripleDQ)
        = ⟨[⟨"foo", 1, String.mk "does a thing".toList, "function"⟩], []⟩ := by
  have hhd : ("does a thing".toList).head? = some 'd' := by decide
  have hlst : ("does a thing".toList).getLast? = some 'g' := by decide
  have hh : ∀ c, ("does a thing".toList).head? = some c → c ≠ dq ∧ c ≠ sq := by
    intro c hc
    rw [hhd] at hc
    injection hc with hc
    subst hc
    exact ⟨by decide, by decide⟩
  have hl : ∀ c, ("does a thing".toList).getLast? = some c → c ≠ dq ∧ c ≠ sq := by
    intro c hc
    rw [hlst] at hc
    injection hc with hc
    subst hc
    exact ⟨by decide, by decide⟩
  exact ⟨⟨by decide, hh, hl⟩,
    docstring_both_markers_stripped "does a thing".toList (by decide) hh hl⟩

end RepoUtils
